import Mathlib

/-!
Verification development for the tv_show_renamer repository.

The Python source is shallowly embedded: the filename parser
(`extract_show_info`, `extract_episode_number` in `src/core/renamer.py`),
the formatting helpers (`format_show_name` in `src/utils/logger.py`,
`sanitize_filename`), the cached metadata resolver (`get_show_info`,
`get_episode_info`, `get_season_details`), the preview step
(`preview_tv_show_rename` in `src/gui/main_window.py`), the batch rename /
undo engine (`start_batch`, `undo_last_batch` in `src/gui/main_window.py`)
and the legacy `main.py` preview (`update_preview`, `generate_new_name`).

Python regular expressions are embedded as executable character-list
matchers that reproduce the scanning and backtracking behaviour of the
specific patterns appearing in the source.  The external TMDb lookup
service is a function parameter; the filesystem is a finite set of
(directory, basename) pairs.
-/

/-! ## Character helpers -/

/-- The separator character class of the source regexes. -/
def isSepCh (c : Char) : Bool :=
  c = '.' || c = ' ' || c = '_'

/-- Numeric value of a decimal digit character. -/
def dval (c : Char) : Nat :=
  c.toNat - 48

/-- Python `str.strip()`: drop whitespace from both ends. -/
def pyStrip (l : List Char) : List Char :=
  ((l.dropWhile Char.isWhitespace).reverse.dropWhile Char.isWhitespace).reverse

/-! ## Regex building blocks

Each Python regex used by the parser is embedded as a matcher on
`List Char`.  Greedy `\d{1,2}` followed by further pattern material is
implemented with the regex backtracking order: try two digits, then one. -/

/-- Greedy `(\d{1,2})` with nothing after it in the pattern: take two digits
if available, else one. -/
def epDigits : List Char → Option Nat
  | a :: b :: _ =>
    if a.isDigit then
      if b.isDigit then some (10 * dval a + dval b) else some (dval a)
    else none
  | [a] => if a.isDigit then some (dval a) else none
  | [] => none

/-- Greedy `(\d{1,2})` followed by a continuation `k` (regex backtracking:
two digits first, then one). -/
def ddThen (k : List Char → Option β) : List Char → Option (Nat × β)
  | a :: b :: rest =>
    if a.isDigit then
      if b.isDigit then
        match k rest with
        | some x => some (10 * dval a + dval b, x)
        | none =>
          match k (b :: rest) with
          | some x => some (dval a, x)
          | none => none
      else
        match k (b :: rest) with
        | some x => some (dval a, x)
        | none => none
    else none
  | [a] =>
    if a.isDigit then
      match k [] with
      | some x => some (dval a, x)
      | none => none
    else none
  | [] => none

/-- `0?` (greedy, with backtracking) in front of a matcher `p`: if the
next character is `0`, first try the rest of the pattern after it, then
retry without consuming it. -/
def zeroOpt (p : List Char → Option α) (l : List Char) : Option α :=
  match l with
  | c :: rest =>
    if c = '0' then
      match p rest with
      | some x => some x
      | none => p (c :: rest)
    else p (c :: rest)
  | [] => p []

/-- Case-insensitive literal match; returns the rest of the input. -/
def stripCI : List Char → List Char → Option (List Char)
  | [], l => some l
  | _ :: _, [] => none
  | w :: ws, c :: cs => if c.toLower = w.toLower then stripCI ws cs else none

/-- `E(\d{1,2})` (case-insensitive `E`). -/
def afterE : List Char → Option Nat
  | c :: rest => if c = 'E' || c = 'e' then epDigits rest else none
  | [] => none

/-- `x(\d{1,2})` (case-insensitive `x`). -/
def afterX : List Char → Option Nat
  | c :: rest => if c = 'x' || c = 'X' then epDigits rest else none
  | [] => none

/-! ## The five numbered patterns of `extract_show_info`

Each matcher consumes the text immediately after the `[\. _]` separator and
returns `(group2, group3)` of the corresponding source regex. -/

/-- Pattern `S0?(\d{1,2})E(\d{1,2})` after the separator. -/
def matchSE : List Char → Option (Nat × Nat)
  | c :: rest =>
    if c = 'S' || c = 's' then zeroOpt (ddThen afterE) rest else none
  | [] => none

/-- Pattern `0?(\d{1,2})x(\d{1,2})` after the separator. -/
def matchNxM (l : List Char) : Option (Nat × Nat) :=
  zeroOpt (ddThen afterX) l

/-- Pattern `(\d{1})(\d{2})\D` after the separator: a season digit, two
episode digits, and a mandatory trailing non-digit character. -/
def matchSEE : List Char → Option (Nat × Nat)
  | a :: b :: c :: d :: _ =>
    if a.isDigit && b.isDigit && c.isDigit && !d.isDigit then
      some (dval a, 10 * dval b + dval c)
    else none
  | _ => none

/-- `[\. _]Episode[\. _](\d{1,2})`, the tail of the verbose pattern. -/
def afterSepEpisode : List Char → Option Nat
  | c :: rest =>
    if isSepCh c then
      match stripCI ['e', 'p', 'i', 's', 'o', 'd', 'e'] rest with
      | some l2 =>
        match l2 with
        | c2 :: r2 => if isSepCh c2 then epDigits r2 else none
        | [] => none
      | none => none
    else none
  | [] => none

/-- Pattern `Season[\. _]0?(\d{1,2})[\. _]Episode[\. _](\d{1,2})` after the
separator. -/
def matchSeasonEpisode (l : List Char) : Option (Nat × Nat) :=
  match stripCI ['s', 'e', 'a', 's', 'o', 'n'] l with
  | some l1 =>
    match l1 with
    | c :: rest => if isSepCh c then zeroOpt (ddThen afterSepEpisode) rest else none
    | [] => none
  | none => none

/-- `[\. _]S0?(\d{1,2})`, the tail of the episode-before-season pattern. -/
def afterSepS : List Char → Option Nat
  | c :: rest =>
    if isSepCh c then
      match rest with
      | c2 :: r2 => if c2 = 'S' || c2 = 's' then zeroOpt epDigits r2 else none
      | [] => none
    else none
  | [] => none

/-- Pattern `E(\d{1,2})[\. _]S0?(\d{1,2})` after the separator.  Returns
(group2, group3) = (digits after `E`, digits after `S`), exactly as the
source regex groups them. -/
def matchES : List Char → Option (Nat × Nat)
  | c :: rest => if c = 'E' || c = 'e' then ddThen afterSepS rest else none
  | [] => none

/-- `re.search` for an anchored pattern `^(.*?)[\. _]<m>`: scan for the
first (leftmost, since group 1 is lazy) separator position at which the
matcher `m` succeeds on the remaining text.  `acc` holds the reversed
characters scanned so far; group 1 is `acc.reverse`. -/
def scanPat (m : List Char → Option (Nat × Nat)) :
    List Char → List Char → Option (List Char × Nat × Nat)
  | _, [] => none
  | acc, c :: rest =>
    if isSepCh c then
      match m rest with
      | some (x, y) => some (acc.reverse, x, y)
      | none => scanPat m (c :: acc) rest
    else scanPat m (c :: acc) rest

/-! ## The episode-only pattern
`^(\d{1,2})[\. _]-[\. _](.*?)(?:\[.*?\])*\..*$` -/

/-- Suffixes of `l` that start right after some `]` in `l`. -/
def suffixesAfterClose : List Char → List (List Char)
  | [] => []
  | c :: r =>
    if c = ']' then r :: suffixesAfterClose r else suffixesAfterClose r

/-- Whether `(?:\[.*?\])*\..*$` can match the given text (existence of a
match; the fuel bounds the number of bracket groups tried). -/
def tailBracketsDot : Nat → List Char → Bool
  | 0, _ => false
  | _ + 1, [] => false
  | fuel + 1, c :: r =>
    if c = '.' then true
    else if c = '[' then (suffixesAfterClose r).any (tailBracketsDot fuel)
    else false

/-- Lazy group 2: the shortest prefix of the input such that the bracketed
tail pattern matches the remainder. -/
def lazyGroup2 (acc : List Char) : List Char → Option (List Char)
  | [] => none
  | c :: r =>
    if tailBracketsDot (r.length + 1) (c :: r) then some acc.reverse
    else lazyGroup2 (c :: acc) r

/-- `[\. _]-[\. _]` followed by the lazy group 2. -/
def afterDash : List Char → Option (List Char)
  | c :: rest =>
    if isSepCh c then
      match rest with
      | '-' :: r2 =>
        match r2 with
        | c3 :: r3 => if isSepCh c3 then lazyGroup2 [] r3 else none
        | [] => none
      | _ => none
    else none
  | [] => none

/-- The special episode-only regex of `extract_show_info`
(`^(\d{1,2})[\. _]-[\. _](.*?)(?:\[.*?\])*\..*$`): returns
(episode number, group 2). -/
def matchEpisodeOnly (l : List Char) : Option (Nat × List Char) :=
  ddThen afterDash l

/-- `\d+` (greedy, at least one digit). -/
def digitsPlus (l : List Char) : Option Nat :=
  match l.takeWhile Char.isDigit with
  | [] => none
  | ds => some (ds.foldl (fun n c => 10 * n + dval c) 0)

/-- Unanchored search for `season[\. _](\d+)` (case-insensitive). -/
def findSeasonNum : List Char → Option Nat
  | [] => none
  | c :: rest =>
    match stripCI ['s', 'e', 'a', 's', 'o', 'n'] (c :: rest) with
    | some l1 =>
      match l1 with
      | c1 :: r1 =>
        if isSepCh c1 then
          match digitsPlus r1 with
          | some n => some n
          | none => findSeasonNum rest
        else findSeasonNum rest
      | [] => findSeasonNum rest
    | none => findSeasonNum rest

/-! ## Cleanup helpers shared by the parser -/

/-- `re.sub(r"\[.*?\]", "", s)`: remove every complete (lazily matched)
bracketed group; an unclosed `[` and the text after it stay.  The second
argument holds the characters accumulated since an `[` that is still
waiting for its `]`. -/
def stripTags : List Char → Option (List Char) → List Char
  | [], none => []
  | [], some p => p.reverse
  | c :: rest, none =>
    if c = '[' then stripTags rest (some [c]) else c :: stripTags rest none
  | c :: rest, some p =>
    if c = ']' then stripTags rest none else stripTags rest (some (c :: p))

/-- The show-name cleanup of `extract_show_info`: dots to spaces, strip,
remove bracketed tags, strip, truncate at the first hyphen, strip. -/
def cleanupShowName (g1 : List Char) : String :=
  let raw := pyStrip (g1.map (fun c => if c = '.' then ' ' else c))
  let s1 := pyStrip (stripTags raw none)
  String.mk (pyStrip (s1.takeWhile (fun c => c ≠ '-')))

/-- The cleanup applied to the episode-only title (no dot replacement in
this branch): strip tags, strip, truncate at first hyphen, strip. -/
def cleanupEpisodeOnlyTitle (t : List Char) : String :=
  let s1 := pyStrip (stripTags t none)
  String.mk (pyStrip (s1.takeWhile (fun c => c ≠ '-')))

/-- The episode-only branch of `extract_show_info`: the regex has matched
with episode number `ep` and raw title `title`; find a season in the title,
else fall back to the ambient `current_season` (Python truthiness: `None`
and `0` both fail the `if`), else give up. -/
def episodeOnlyResult (current_season : Option Nat) (ep : Nat)
    (title : List Char) : Option (String × Nat × Nat) :=
  let t := pyStrip title
  match findSeasonNum t with
  | some season => some (cleanupEpisodeOnlyTitle t, season, ep)
  | none =>
    match current_season with
    | some season =>
      if season = 0 then none else some (cleanupEpisodeOnlyTitle t, season, ep)
    | none => none

/-- `TVShowRenamer.extract_show_info` (src/core/renamer.py): the special
episode-only pattern first (an early return in the source), then the five
numbered patterns in order; `season := group(2)` and `episode := group(3)`
uniformly for the numbered patterns. -/
def extract_show_info (current_season : Option Nat) (filename : String) :
    Option (String × Nat × Nat) :=
  let cs := filename.data
  match matchEpisodeOnly cs with
  | some (ep, title) => episodeOnlyResult current_season ep title
  | none =>
    match scanPat matchSE [] cs with
    | some (g1, s, e) => some (cleanupShowName g1, s, e)
    | none =>
      match scanPat matchNxM [] cs with
      | some (g1, s, e) => some (cleanupShowName g1, s, e)
      | none =>
        match scanPat matchSEE [] cs with
        | some (g1, s, e) => some (cleanupShowName g1, s, e)
        | none =>
          match scanPat matchSeasonEpisode [] cs with
          | some (g1, s, e) => some (cleanupShowName g1, s, e)
          | none =>
            match scanPat matchES [] cs with
            | some (g1, s, e) => some (cleanupShowName g1, s, e)
            | none => none

/-! ## `extract_episode_number` -/

/-- Unanchored search for `E(\d{1,2})` (case-insensitive). -/
def findE : List Char → Option Nat
  | [] => none
  | c :: r =>
    if c = 'E' || c = 'e' then
      match epDigits r with
      | some n => some n
      | none => findE r
    else findE r

/-- `[\. _]-` (the continuation of the leading-episode pattern). -/
def sepDash : List Char → Option Unit
  | c :: '-' :: _ => if isSepCh c then some () else none
  | _ => none

/-- Anchored `^(\d{1,2})[\. _]-`. -/
def leadEp (l : List Char) : Option Nat :=
  match ddThen sepDash l with
  | some (n, _) => some n
  | none => none

/-- Unanchored search for `x(\d{1,2})` (case-insensitive). -/
def findX : List Char → Option Nat
  | [] => none
  | c :: r =>
    if c = 'x' || c = 'X' then
      match epDigits r with
      | some n => some n
      | none => findX r
    else findX r

/-- Unanchored search for `(\d{2})(?=\D|$)`. -/
def findTwoDigit : List Char → Option Nat
  | a :: b :: rest =>
    if a.isDigit && b.isDigit &&
        (match rest with
         | [] => true
         | c :: _ => !c.isDigit) then
      some (10 * dval a + dval b)
    else findTwoDigit (b :: rest)
  | _ => none

/-- `TVShowRenamer.extract_episode_number` (src/core/renamer.py): the four
episode-number patterns in order, first match wins. -/
def extract_episode_number (filename : String) : Option Nat :=
  let cs := filename.data
  match findE cs with
  | some n => some n
  | none =>
    match leadEp cs with
    | some n => some n
    | none =>
      match findX cs with
      | some n => some n
      | none => findTwoDigit cs

/-! ## Formatting and sanitization (src/utils/logger.py, renamer.py) -/

/-- Python `str.title()` on ASCII text: uppercase a letter that follows a
non-letter, lowercase a letter that follows a letter. -/
def pyTitleAux : Bool → List Char → List Char
  | _, [] => []
  | prev, c :: rest =>
    if c.isAlpha then
      (if prev then c.toLower else c.toUpper) :: pyTitleAux true rest
    else c :: pyTitleAux false rest

/-- Python `str.title()`. -/
def pyTitle (s : String) : String :=
  String.mk (pyTitleAux false s.data)

/-- Python `str.lower()` (ASCII). -/
def pyLower (s : String) : String :=
  String.mk (s.data.map Char.toLower)

/-- Python `str.split()` (split on whitespace runs, no empty words). -/
def wordsAux : List Char → List Char → List String
  | cur, [] => if cur.isEmpty then [] else [String.mk cur.reverse]
  | cur, c :: rest =>
    if c.isWhitespace then
      if cur.isEmpty then wordsAux [] rest
      else String.mk cur.reverse :: wordsAux [] rest
    else wordsAux (c :: cur) rest

/-- Python `str.split()` on a string. -/
def pySplitWs (s : String) : List String :=
  wordsAux [] s.data

/-- The closed set of minor words of `format_show_name`. -/
def articles : List String :=
  ["a", "an", "the", "in", "on", "at", "for", "to", "of", "with", "by"]

/-- The word loop of `format_show_name`: first word or non-article gets
`word.title()`, otherwise `word.lower()`. -/
def formatWordsAux : Nat → List String → List String
  | _, [] => []
  | i, w :: ws =>
    (if i = 0 || !(articles.contains (pyLower w)) then pyTitle w else pyLower w)
      :: formatWordsAux (i + 1) ws

/-- `format_show_name` (src/utils/logger.py): `name.strip().split()` then
the word loop, joined by single spaces. -/
def format_show_name (name : String) : String :=
  String.intercalate " " (formatWordsAux 0 (pySplitWs (String.mk (pyStrip name.data))))

/-- Word loop of the specification-level title formatter. -/
def formatTitleSpecAux : Bool → List String → List String
  | _, [] => []
  | isFirst, w :: ws =>
    (if isFirst then pyTitle w
     else if articles.contains (pyLower w) then pyLower w
     else pyTitle w) :: formatTitleSpecAux false ws

/-- The title-formatting rule as the specification words it: split on
whitespace; capitalize every word, except that a minor word that is not
the first word is lowercased; the first word is always capitalized. -/
def formatTitleSpec (name : String) : String :=
  String.intercalate " " (formatTitleSpecAux true (pySplitWs (String.mk (pyStrip name.data))))

/-- `TVShowRenamer.sanitize_filename`: replace `<>:"/\|?*` by `_`. -/
def sanitize_filename (filename : String) : String :=
  String.mk (filename.data.map (fun c =>
    if c = '<' || c = '>' || c = ':' || c = '"' || c = '/' || c = '\\' ||
        c = '|' || c = '?' || c = '*' then '_' else c))

/-- Python `os.path.splitext` on a basename: split at the last dot, except
that leading dots never begin an extension. -/
def splitext (s : String) : String × String :=
  let cs := s.data
  let extRev := cs.reverse.takeWhile (fun c => c ≠ '.')
  if extRev.length = cs.length then (s, "")
  else
    let base := cs.take (cs.length - extRev.length - 1)
    if base.all (fun c => c = '.') then (s, "")
    else (String.mk base, String.mk (cs.drop (cs.length - extRev.length - 1)))

/-- `f"{n:02d}"` for a natural number. -/
def pad2 (n : Nat) : String :=
  if n < 10 then "0" ++ toString n else toString n

/-- `f"{n:03d}"` for a natural number. -/
def pad3 (n : Nat) : String :=
  if n < 10 then "00" ++ toString n
  else if n < 100 then "0" ++ toString n
  else toString n

/-! ## Metadata resolver with caching (src/core/renamer.py)

The TMDb client is a pair of function parameters: `search` models
`Search.tv_shows` (list of candidates, most relevant first) and `details`
models `TV.details`; a `none` result models the exception / not-found
path that `get_show_info` catches.  Likewise `epSvc` models
`Episode.details` and `seasonSvc` models `TV.season`. -/

/-- One element of a TMDb search result list (only the id is used). -/
structure SearchResult where
  id : Nat
deriving DecidableEq, Repr

/-- The fields of a TMDb show-details response that `get_show_info`
reads; optional fields model `getattr(..., default)`. -/
structure ShowDetailsResp where
  name : String
  original_name : String
  first_air_date : Option String
  overview : Option String
deriving DecidableEq, Repr

/-- The trimmed projection stored in `show_cache`. -/
structure ShowData where
  id : Nat
  name : String
  original_name : String
  first_air_date : Option String
  overview : String
deriving DecidableEq, Repr

/-- The fields of a TMDb episode-details response that `get_episode_info`
reads. -/
structure EpisodeDetailsResp where
  name : String
  air_date : Option String
  episode_number : Nat
  season_number : Nat
  overview : Option String
deriving DecidableEq, Repr

/-- The trimmed projection stored in `episode_cache`. -/
structure EpisodeData where
  name : String
  air_date : Option String
  episode_number : Nat
  season_number : Nat
  overview : String
deriving DecidableEq, Repr

/-- One episode of a TMDb season-details response. -/
structure SeasonEpisodeResp where
  episode_number : Nat
  name : String
  air_date : Option String
deriving DecidableEq, Repr

/-- The trimmed projection stored in `season_cache`. -/
structure SeasonData where
  episodes : List SeasonEpisodeResp
deriving DecidableEq, Repr

/-- The `api_call_count` dictionary. -/
structure ApiCallCount where
  searchCalls : Nat
  show_details : Nat
  season_details : Nat
  episode_details : Nat
deriving DecidableEq, Repr

/-- The `cache_hits` dictionary. -/
structure CacheHits where
  showHits : Nat
  seasonHits : Nat
  episodeHits : Nat
  searchHits : Nat
deriving DecidableEq, Repr

/-- The mutable state of a `TVShowRenamer` instance: the caches and the
counters.  Caches are association lists probed front-first, so inserting
at the front models Python dict assignment. -/
structure RenamerState where
  show_cache : List (String × ShowData)
  season_cache : List (String × SeasonData)
  episode_cache : List (String × EpisodeData)
  api_call_count : ApiCallCount
  cache_hits : CacheHits
deriving DecidableEq, Repr

/-- The state built by `TVShowRenamer.__init__`. -/
def initRenamerState : RenamerState :=
  { show_cache := []
    season_cache := []
    episode_cache := []
    api_call_count := ⟨0, 0, 0, 0⟩
    cache_hits := ⟨0, 0, 0, 0⟩ }

/-- `s[:200]` — truncate a string to its first 200 characters. -/
def truncate200 (s : String) : String :=
  String.mk (s.data.take 200)

/-- `TVShowRenamer.get_show_info`: probe `show_cache` by the lowercased
name; on a hit bump the show hit counter and return the cached value; on a
miss bump the search call counter, consult the service once, and cache the
trimmed projection of a successful response. -/
def get_show_info (search : String → List SearchResult)
    (details : Nat → Option ShowDetailsResp)
    (st : RenamerState) (show_name : String) :
    Option ShowData × RenamerState :=
  let cache_key := pyLower show_name
  match st.show_cache.lookup cache_key with
  | some v =>
    (some v,
      { st with cache_hits := { st.cache_hits with showHits := st.cache_hits.showHits + 1 } })
  | none =>
    let st1 :=
      { st with api_call_count :=
          { st.api_call_count with searchCalls := st.api_call_count.searchCalls + 1 } }
    match search show_name with
    | [] => (none, st1)
    | sr :: _ =>
      match details sr.id with
      | none => (none, st1)
      | some d =>
        let show_data : ShowData :=
          { id := sr.id
            name := d.name
            original_name := d.original_name
            first_air_date := d.first_air_date
            overview := truncate200 (d.overview.getD "") }
        (some show_data,
          { st1 with show_cache := (cache_key, show_data) :: st1.show_cache })

/-- `TVShowRenamer.get_episode_info`: probe `episode_cache` by
`f"{show_id}_{season}_{episode}"`; on a miss bump the episode call counter,
consult the service once, and cache the trimmed projection. -/
def get_episode_info (epSvc : Nat → Nat → Nat → Option EpisodeDetailsResp)
    (st : RenamerState) (show_id season episode : Nat) :
    Option EpisodeData × RenamerState :=
  let cache_key := toString show_id ++ "_" ++ toString season ++ "_" ++ toString episode
  match st.episode_cache.lookup cache_key with
  | some v =>
    (some v,
      { st with cache_hits := { st.cache_hits with episodeHits := st.cache_hits.episodeHits + 1 } })
  | none =>
    let st1 :=
      { st with api_call_count :=
          { st.api_call_count with episode_details := st.api_call_count.episode_details + 1 } }
    match epSvc show_id season episode with
    | none => (none, st1)
    | some d =>
      let episode_data : EpisodeData :=
        { name := d.name
          air_date := d.air_date
          episode_number := d.episode_number
          season_number := d.season_number
          overview := truncate200 (d.overview.getD "") }
      (some episode_data,
        { st1 with episode_cache := (cache_key, episode_data) :: st1.episode_cache })

/-- `TVShowRenamer.get_season_details`: probe `season_cache` by
`f"{show_id}_{season_num}"`; on a miss bump the season call counter,
consult the service once, and cache the per-episode projection. -/
def get_season_details (seasonSvc : Nat → Nat → Option (List SeasonEpisodeResp))
    (st : RenamerState) (show_id season_num : Nat) :
    Option SeasonData × RenamerState :=
  let cache_key := toString show_id ++ "_" ++ toString season_num
  match st.season_cache.lookup cache_key with
  | some v =>
    (some v,
      { st with cache_hits := { st.cache_hits with seasonHits := st.cache_hits.seasonHits + 1 } })
  | none =>
    let st1 :=
      { st with api_call_count :=
          { st.api_call_count with season_details := st.api_call_count.season_details + 1 } }
    match seasonSvc show_id season_num with
    | none => (none, st1)
    | some eps =>
      let season_data : SeasonData := { episodes := eps }
      (some season_data,
        { st1 with season_cache := (cache_key, season_data) :: st1.season_cache })

/-- One call into the resolver (used to quantify over arbitrary call
sequences). -/
inductive ResolverOp where
  | showOp (name : String)
  | episodeOp (show_id season episode : Nat)
  | seasonOp (show_id season_num : Nat)
deriving DecidableEq, Repr

/-- Apply one resolver call to the state. -/
def applyResolverOp (search : String → List SearchResult)
    (details : Nat → Option ShowDetailsResp)
    (epSvc : Nat → Nat → Nat → Option EpisodeDetailsResp)
    (seasonSvc : Nat → Nat → Option (List SeasonEpisodeResp))
    (st : RenamerState) : ResolverOp → RenamerState
  | ResolverOp.showOp n => (get_show_info search details st n).2
  | ResolverOp.episodeOp i s e => (get_episode_info epSvc st i s e).2
  | ResolverOp.seasonOp i s => (get_season_details seasonSvc st i s).2

/-- Run a sequence of resolver calls from the freshly initialized state. -/
def runResolverOps (search : String → List SearchResult)
    (details : Nat → Option ShowDetailsResp)
    (epSvc : Nat → Nat → Nat → Option EpisodeDetailsResp)
    (seasonSvc : Nat → Nat → Option (List SeasonEpisodeResp))
    (ops : List ResolverOp) : RenamerState :=
  ops.foldl (applyResolverOp search details epSvc seasonSvc) initRenamerState

/-- Resolve a list of show names in order, starting from the freshly
initialized state. -/
def resolveNames (search : String → List SearchResult)
    (details : Nat → Option ShowDetailsResp)
    (names : List String) : RenamerState :=
  names.foldl (fun st n => (get_show_info search details st n).2) initRenamerState

/-! ## Preview (src/gui/main_window.py) -/

/-- The show selected via the dialog (the fields the preview reads). -/
structure ShowCtx where
  id : Nat
  name : String
deriving DecidableEq, Repr

/-- `FileEntry` (src/core/models/file_entry.py). -/
structure FileEntry where
  path : String
  original_name : String
  new_name : String
  status : String
deriving DecidableEq, Repr

/-- `AdvancedRenamer.preview_tv_show_rename` (src/gui/main_window.py):
set a specific status and an empty proposed name for each missing piece
(`if not ...` is Python truthiness, so a selected season 0 or an extracted
episode number 0 also count as missing); otherwise resolve the episode and
compose the sanitized proposed name. -/
def preview_tv_show_rename (epSvc : Nat → Nat → Nat → Option EpisodeDetailsResp)
    (st : RenamerState) (current_show : Option ShowCtx)
    (current_season : Option Nat) (entry : FileEntry) :
    FileEntry × RenamerState :=
  match current_show with
  | none => ({ entry with status := "No show selected", new_name := "" }, st)
  | some sh =>
    match current_season with
    | none => ({ entry with status := "No season selected", new_name := "" }, st)
    | some season =>
      if season = 0 then
        ({ entry with status := "No season selected", new_name := "" }, st)
      else
        match extract_episode_number entry.original_name with
        | none =>
          ({ entry with status := "No episode number found", new_name := "" }, st)
        | some episode_num =>
          if episode_num = 0 then
            ({ entry with status := "No episode number found", new_name := "" }, st)
          else
            match get_episode_info epSvc st sh.id season episode_num with
            | (some info, st1) =>
              let extension := (splitext entry.original_name).2
              let new_name := sh.name ++ "-S" ++ pad2 season ++ "E" ++
                pad2 episode_num ++ "-" ++ info.name ++ extension
              ({ entry with new_name := sanitize_filename new_name,
                            status := "Ready" }, st1)
            | (none, st1) =>
              ({ entry with status := "Episode not found in season " ++ toString season,
                            new_name := "" }, st1)

/-! ## Batch rename engine (src/gui/main_window.py)

The filesystem is a finite set of (directory, basename) pairs;
`os.path.dirname` / `os.path.join` are the projections / pairing on such
paths.  `os.rename` fails (raises) when the source is missing or the
target already exists; the OS error text is abstracted by `osErrorMsg`. -/

/-- Stand-in for the OS error message attached to a failed rename. -/
def osErrorMsg : String := "rename failed"

/-- `os.rename` on the modelled filesystem. -/
def osRename (fs : Finset (String × String)) (old new : String × String) :
    Option (Finset (String × String)) :=
  if old ∈ fs ∧ new ∉ fs then some (insert new (fs.erase old)) else none

/-- One row of the preview treeview: (original name, proposed name, path,
status). -/
structure TreeRow where
  original_name : String
  new_name : String
  path : String × String
  status : String
deriving DecidableEq, Repr

/-- One entry of the undo stack: timestamp plus the ordered
(path-after-rename, original-name) pairs. -/
structure UndoBatch where
  timestamp : String
  files : List ((String × String) × String)
deriving DecidableEq, Repr

/-- The per-row loop of `AdvancedRenamer.start_batch`: rows with an empty
or "Not processed" proposed name are skipped; otherwise the file is
renamed inside its directory, a successful rename appends the
(new path, original name) pair to the undo record and bumps the success
count, and a failed rename sets an error status and records nothing. -/
def start_batch_go (fs : Finset (String × String)) :
    List TreeRow →
      Finset (String × String) × List ((String × String) × String) × Nat × List TreeRow
  | [] => (fs, [], 0, [])
  | r :: rest =>
    if r.new_name = "" || r.new_name = "Not processed" then
      let res := start_batch_go fs rest
      (res.1, res.2.1, res.2.2.1, r :: res.2.2.2)
    else
      let new_path := (r.path.1, r.new_name)
      match osRename fs r.path new_path with
      | some fs1 =>
        let res := start_batch_go fs1 rest
        (res.1, (new_path, r.original_name) :: res.2.1, res.2.2.1 + 1,
          { r with path := new_path, status := "Success" } :: res.2.2.2)
      | none =>
        let res := start_batch_go fs rest
        (res.1, res.2.1, res.2.2.1,
          { r with status := "Error: " ++ osErrorMsg } :: res.2.2.2)

/-- `AdvancedRenamer.start_batch`: run the per-row loop, then push the undo
batch onto the stack only if it is non-empty.  Returns (filesystem,
undo stack, success count, updated rows). -/
def start_batch (ts : String) (fs : Finset (String × String))
    (undo_stack : List UndoBatch) (rows : List TreeRow) :
    Finset (String × String) × List UndoBatch × Nat × List TreeRow :=
  let res := start_batch_go fs rows
  (res.1,
    if res.2.1.isEmpty then undo_stack else undo_stack ++ [⟨ts, res.2.1⟩],
    res.2.2.1, res.2.2.2)

/-- The per-pair loop of `AdvancedRenamer.undo_last_batch`: rename each
still-existing post-rename path back to the original name in the same
directory; failures are reported but do not stop the loop. -/
def undo_files (fs : Finset (String × String)) :
    List ((String × String) × String) → Finset (String × String)
  | [] => fs
  | (p, orig) :: rest =>
    if p ∈ fs then
      match osRename fs p (p.1, orig) with
      | some fs1 => undo_files fs1 rest
      | none => undo_files fs rest
    else undo_files fs rest

/-- `AdvancedRenamer.undo_last_batch`: pop the most recent batch (doing
nothing on an empty stack) and best-effort rename its files back. -/
def undo_last_batch (fs : Finset (String × String)) (undo_stack : List UndoBatch) :
    Finset (String × String) × List UndoBatch :=
  match undo_stack.getLast? with
  | none => (fs, undo_stack)
  | some last => (undo_files fs last.files, undo_stack.dropLast)

/-! ## The legacy surface (main.py)

`main.py` has its own `RenamingMethod`, `FileEntry`, `update_preview` and
`generate_new_name`.  Its TV-show preview delegates to
`tv_show_renamer.TVShowRenamer.generate_new_name`, which is abstracted as
the oracle `tvGen`; `os.path.getctime` + `strftime` is abstracted as the
oracle `ctime`. -/

namespace MainPy

/-- `RenamingMethod` (main.py). -/
structure RenamingMethod where
  name : String
  pat : String
  description : String
deriving DecidableEq, Repr

/-- `FileEntry` (main.py): `original_name` is the basename of `path`. -/
structure FileEntry where
  path : String × String
  original_name : String
  new_name : String
  status : String
deriving DecidableEq, Repr

/-- `FileEntry.__init__`. -/
def mkFileEntry (path : String × String) : FileEntry :=
  { path := path, original_name := path.2, new_name := "", status := "Pending" }

/-- `AdvancedRenamer.generate_new_name` (main.py, lines 190-205): the
non-TV renaming strategies, selected by the method name. -/
def generate_new_name (ctime : String × String → String)
    (method : RenamingMethod) (file_entry : FileEntry) (index : Nat) : String :=
  let ne := splitext file_entry.original_name
  if method.name = "<Inc Nr>" then pad3 index ++ ne.2
  else if method.name = "<Name>" then ne.1
  else if method.name = "<Ext>" then (if ne.2 = "" then "" else ne.2.drop 1)
  else if method.name = "<Date>" then ctime file_entry.path ++ ne.2
  else file_entry.original_name

/-- `AdvancedRenamer.preview_tv_show_rename` (main.py): delegate to the
TV renamer; a `None` result means status "No match". -/
def preview_tv_show_rename (tvGen : String → Option String) (f : FileEntry) :
    FileEntry :=
  match tvGen f.original_name with
  | some n => { f with new_name := n, status := "Ready" }
  | none => { f with status := "No match" }

/-- `AdvancedRenamer.update_preview` (main.py, lines 167-188): for every
file entry, the TV method delegates to the TV preview; any other selected
method calls `generate_new_name(file_entry, 1)` — the index argument is
the literal `1` in the source. -/
def update_preview (tvGen : String → Option String)
    (ctime : String × String → String) (current_method : Option RenamingMethod)
    (files : List FileEntry) : List FileEntry :=
  files.map (fun f =>
    match current_method with
    | some m =>
      if m.name = "TV Show (TVDB)" then preview_tv_show_rename tvGen f
      else { f with new_name := generate_new_name ctime m f 1, status := "Ready" }
    | none => f)

end MainPy

/-! ## Character-class and strip lemmas -/

/-- Evaluate the bit-vector of a `UInt32` numeric literal. -/
lemma uLit (n : Nat) :
    (UInt32.toBitVec (no_index (OfNat.ofNat n))).toNat = n % 4294967296 := rfl

lemma isDigit_false_of_isAlpha (c : Char) (h : c.isAlpha = true) :
    c.isDigit = false := by
  simp only [Char.isDigit, Char.isAlpha, Char.isUpper, Char.isLower,
    UInt32.le_def, BitVec.le_def, uLit, Bool.and_eq_true, decide_eq_true_eq,
    Bool.or_eq_true, Bool.and_eq_false_iff, Bool.or_eq_false_iff,
    decide_eq_false_iff_not, not_le] at h ⊢
  omega

lemma isSepCh_false_of_isAlpha (c : Char) (h : c.isAlpha = true) :
    isSepCh c = false := by
  simp only [isSepCh, Bool.or_eq_false_iff, decide_eq_false_iff_not]
  refine ⟨⟨?_, ?_⟩, ?_⟩ <;> rintro rfl <;> exact absurd h (by decide)

lemma isSepCh_false_of_isDigit (c : Char) (h : c.isDigit = true) :
    isSepCh c = false := by
  simp only [isSepCh, Bool.or_eq_false_iff, decide_eq_false_iff_not]
  refine ⟨⟨?_, ?_⟩, ?_⟩ <;> rintro rfl <;> exact absurd h (by decide)

lemma ne_of_isAlpha (c x : Char) (h : c.isAlpha = true) (hx : x.isAlpha = false) :
    c ≠ x := by
  rintro rfl; rw [h] at hx; cases hx

lemma ne_of_isDigit (c x : Char) (h : c.isDigit = true) (hx : x.isDigit = false) :
    c ≠ x := by
  rintro rfl; rw [h] at hx; cases hx

lemma toLower_of_isDigit (c : Char) (h : c.isDigit = true) : c.toLower = c := by
  simp only [Char.isDigit, UInt32.le_def, BitVec.le_def, uLit,
    Bool.and_eq_true, decide_eq_true_eq] at h
  unfold Char.toLower
  rw [if_neg]
  simp only [Char.toNat, UInt32.toNat, not_and, not_le]
  omega

/-- `pyStrip` is `dropWhile` on the left composed with Mathlib's
`rdropWhile` on the right. -/
lemma pyStrip_eq (l : List Char) :
    pyStrip l =
      List.rdropWhile Char.isWhitespace (l.dropWhile Char.isWhitespace) := rfl

lemma mem_of_mem_pyStrip {c : Char} {l : List Char} (h : c ∈ pyStrip l) :
    c ∈ l := by
  rw [pyStrip_eq] at h
  exact (List.dropWhile_sublist _).subset ((List.rdropWhile_prefix _ _).subset h)

lemma pyStrip_idem (l : List Char) : pyStrip (pyStrip l) = pyStrip l := by
  rw [pyStrip_eq, pyStrip_eq]
  have h1 : (List.rdropWhile Char.isWhitespace
      (l.dropWhile Char.isWhitespace)).dropWhile Char.isWhitespace =
      List.rdropWhile Char.isWhitespace (l.dropWhile Char.isWhitespace) := by
    rcases hm : l.dropWhile Char.isWhitespace with _ | ⟨a, as⟩
    · simp [List.rdropWhile]
    · have ha : Char.isWhitespace a = false := by
        have := List.head?_dropWhile_not Char.isWhitespace l
        rw [hm] at this
        simpa using this
      rcases hr : List.rdropWhile Char.isWhitespace (a :: as) with _ | ⟨b, bs⟩
      · simp
      · obtain ⟨t, ht⟩ := List.rdropWhile_prefix Char.isWhitespace (a :: as)
        rw [hr] at ht
        have hb : b = a := by
          have := congrArg List.head? ht
          simpa using this
        subst hb
        rw [List.dropWhile_cons_of_neg (by simp [ha])]
  rw [h1, List.rdropWhile_idempotent]

/-! ## C9: title formatting -/

lemma formatWordsAux_succ (ws : List String) (i : Nat) :
    formatWordsAux (i + 1) ws = formatTitleSpecAux false ws := by
  induction ws generalizing i with
  | nil => rfl
  | cons w ws ih =>
    simp only [formatWordsAux, formatTitleSpecAux, ih]
    cases h : articles.contains (pyLower w) <;> simp [h]

/-- C9: for every input string, `format_show_name` realizes the
specified title rule — split on whitespace, capitalize every word, except
that minor words (the fixed article list) are lowercased unless they are
the first word — and in particular formats "the lord of the rings" as
"The Lord of the Rings". -/
theorem c9_format_show_name_correct :
    (∀ name, format_show_name name = formatTitleSpec name) ∧
      format_show_name "the lord of the rings" = "The Lord of the Rings" := by
  constructor
  · intro name
    unfold format_show_name formatTitleSpec
    cases h : pySplitWs (String.mk (pyStrip name.data)) with
    | nil => rfl
    | cons w ws =>
      simp only [formatWordsAux, formatTitleSpecAux, formatWordsAux_succ]
      simp
  · decide

/-! ## C5: the episode-before-season pattern -/

/-- C5 (code bug): on `"Show.E05.S02.mkv"` — the episode-before-season
form with episode 5 and season 2 — `extract_show_info` returns season 5
and episode 2: the uniform `season := group(2)`, `episode := group(3)`
assignment swaps the two numbers for the `E..S..` pattern, whose group 2
is the episode digits.  The claim (and the pattern's own comment
`# Pattern: Show.Name.E02.S01`) requires season 2, episode 5. -/
theorem c5_es_pattern_groups_swapped :
    extract_show_info none "Show.E05.S02.mkv" = some ("Show", 5, 2) := by
  decide

/-! ## C8: the incrementing-number method -/

/-- C8 (code bug): `update_preview` (main.py) passes the literal index `1`
to `generate_new_name` for every file, so with the `<Inc Nr>` method both
files of a two-file batch get proposed name "001.mkv"; the claim (and the
method's own description "Incrementing number") requires the second file
to get "002.mkv". -/
theorem c8_inc_nr_constant_index :
    (MainPy.update_preview (fun _ => none) (fun _ => "2024-01-01")
        (some ⟨"<Inc Nr>", "{nr}", "Incrementing number"⟩)
        [MainPy.mkFileEntry ("d", "a.mkv"), MainPy.mkFileEntry ("d", "b.mkv")]).map
      MainPy.FileEntry.new_name = ["001.mkv", "001.mkv"] := by
  decide

/-! ## C3: resolver caching -/

/-- A miss bumps the search counter by one and extends the show cache by
at most the missed key. -/
lemma get_show_info_miss (search : String → List SearchResult)
    (details : Nat → Option ShowDetailsResp) (st : RenamerState) (n : String)
    (h : st.show_cache.lookup (pyLower n) = none) :
    (get_show_info search details st n).2.api_call_count.searchCalls =
        st.api_call_count.searchCalls + 1 ∧
      ((get_show_info search details st n).2.show_cache = st.show_cache ∨
        ∃ v, (get_show_info search details st n).2.show_cache =
          (pyLower n, v) :: st.show_cache) := by
  unfold get_show_info
  simp only [h]
  cases hs : search n with
  | nil => simp
  | cons sr rest =>
    cases hd : details sr.id with
    | none => simp [hd]
    | some d => simp [hd]

/-- Folding `get_show_info` over names that all miss the current cache
adds one search call per name. -/
lemma resolveNames_fold_search (search : String → List SearchResult)
    (details : Nat → Option ShowDetailsResp) :
    ∀ (names : List String) (st : RenamerState),
      (∀ n ∈ names, st.show_cache.lookup (pyLower n) = none) →
      (names.map pyLower).Nodup →
      (names.foldl (fun s n => (get_show_info search details s n).2) st).api_call_count.searchCalls
        = st.api_call_count.searchCalls + names.length := by
  intro names
  induction names with
  | nil => intro st _ _; simp
  | cons n ns ih =>
    intro st hmiss hnodup
    have h1 : st.show_cache.lookup (pyLower n) = none := hmiss n (by simp)
    obtain ⟨hc, hcache⟩ := get_show_info_miss search details st n h1
    simp only [List.map_cons, List.nodup_cons, List.mem_map] at hnodup
    have hnext : ∀ m ∈ ns,
        (get_show_info search details st n).2.show_cache.lookup (pyLower m) = none := by
      intro m hm
      have hne : pyLower m ≠ pyLower n := by
        intro he
        exact hnodup.1 ⟨m, hm, he⟩
      rcases hcache with hsame | ⟨v, hcons⟩
      · rw [hsame]; exact hmiss m (by simp [hm])
      · rw [hcons, List.lookup_cons]
        simp only [beq_false_of_ne hne]
        exact hmiss m (by simp [hm])
    have := ih (get_show_info search details st n).2 hnext hnodup.2
    simp only [List.foldl_cons, List.length_cons]
    omega

/-- C3 (amended): (1) if a call to `get_show_info` returned a value, a
second call with the same show name (compared case-insensitively) returns
that value again and changes the state only by incrementing the show
cache-hit counter — in particular it issues no external search call;
(2) resolving a list of case-insensitively distinct names from a fresh
resolver issues exactly one external search call per name. -/
theorem c3_cache_behavior (search : String → List SearchResult)
    (details : Nat → Option ShowDetailsResp) :
    (∀ (st : RenamerState) (n1 n2 : String), pyLower n2 = pyLower n1 →
      (get_show_info search details st n1).1.isSome = true →
      get_show_info search details (get_show_info search details st n1).2 n2 =
        ((get_show_info search details st n1).1,
          { (get_show_info search details st n1).2 with
            cache_hits := { (get_show_info search details st n1).2.cache_hits with
              showHits :=
                (get_show_info search details st n1).2.cache_hits.showHits + 1 } })) ∧
    (∀ names : List String, (names.map pyLower).Nodup →
      (resolveNames search details names).api_call_count.searchCalls = names.length) := by
  constructor
  · intro st n1 n2 hn hsome
    unfold get_show_info at *
    cases h1 : st.show_cache.lookup (pyLower n1) with
    | some v =>
      simp only [h1] at hsome ⊢
      simp [hn, h1]
    | none =>
      simp only [h1] at hsome ⊢
      cases hs : search n1 with
      | nil => simp [hs] at hsome
      | cons sr rest =>
        cases hd : details sr.id with
        | none => simp [hs, hd] at hsome
        | some d =>
          simp only [hs, hd]
          simp [hn, List.lookup_cons]
  · intro names hnodup
    unfold resolveNames
    have := resolveNames_fold_search search details names initRenamerState
      (by intro m _; rfl) hnodup
    simpa [initRenamerState] using this

/-- C3 counterexample: when the external search finds nothing, nothing is
cached, so a second call to `get_show_info` with the same show name does
not increment the show hit counter and does issue another external call —
refuting the unconditional claim.  Starting from the fresh state and
resolving "Nope" twice against a service that returns no candidates, the
show hit counter stays 0 instead of becoming first-call-hits + 1, and the
search call counter becomes 2 instead of staying at the first call's 1. -/
theorem c3_counterexample :
    ¬ ((get_show_info (fun _ => []) (fun _ => none) (get_show_info (fun _ => []) (fun _ => none) initRenamerState "Nope").2 "Nope").2.cache_hits.showHits =
          (get_show_info (fun _ => []) (fun _ => none) initRenamerState "Nope").2.cache_hits.showHits + 1 ∧
        (get_show_info (fun _ => []) (fun _ => none) (get_show_info (fun _ => []) (fun _ => none) initRenamerState "Nope").2 "Nope").2.api_call_count.searchCalls =
          (get_show_info (fun _ => []) (fun _ => none) initRenamerState "Nope").2.api_call_count.searchCalls) := by
  decide

/-- C3 witness: the amended theorem applied to a service that finds show
id 7 named "Fringe", a repeated lookup under different casing, and the
two-element distinct name list ["Fringe", "Lost"]. -/
theorem c3_cache_behavior_witness :
    get_show_info (fun _ => [⟨7⟩])
        (fun _ => some ⟨"Fringe", "Fringe", none, none⟩) (get_show_info (fun _ => [⟨7⟩]) (fun _ => some ⟨"Fringe", "Fringe", none, none⟩) initRenamerState "Fringe").2 "FRINGE" =
      ((get_show_info (fun _ => [⟨7⟩]) (fun _ => some ⟨"Fringe", "Fringe", none, none⟩) initRenamerState "Fringe").1,
        { (get_show_info (fun _ => [⟨7⟩]) (fun _ => some ⟨"Fringe", "Fringe", none, none⟩) initRenamerState "Fringe").2 with
          cache_hits := { (get_show_info (fun _ => [⟨7⟩]) (fun _ => some ⟨"Fringe", "Fringe", none, none⟩) initRenamerState "Fringe").2.cache_hits with
            showHits := (get_show_info (fun _ => [⟨7⟩]) (fun _ => some ⟨"Fringe", "Fringe", none, none⟩) initRenamerState "Fringe").2.cache_hits.showHits + 1 } }) ∧
      (resolveNames (fun _ => [⟨7⟩])
        (fun _ => some ⟨"Fringe", "Fringe", none, none⟩)
        ["Fringe", "Lost"]).api_call_count.searchCalls = 2 := by
  constructor
  · exact (c3_cache_behavior _ _).1 initRenamerState "Fringe" "FRINGE"
      (by decide) (by decide)
  · exact (c3_cache_behavior _ _).2 ["Fringe", "Lost"] (by decide)

/-! ## C4: specific preview statuses -/

/-- C4: `preview_tv_show_rename` sets a specific status and an empty
proposed name for each missing piece: no show selected, no season
selected, no extractable episode number, and episode absent from the
resolved season (status "Episode not found in season N"). -/
theorem c4_preview_specific_statuses
    (epSvc : Nat → Nat → Nat → Option EpisodeDetailsResp) (st : RenamerState)
    (entry : FileEntry) :
    (∀ season,
      (preview_tv_show_rename epSvc st none season entry).1.status = "No show selected" ∧
      (preview_tv_show_rename epSvc st none season entry).1.new_name = "") ∧
    (∀ sh,
      (preview_tv_show_rename epSvc st (some sh) none entry).1.status = "No season selected" ∧
      (preview_tv_show_rename epSvc st (some sh) none entry).1.new_name = "") ∧
    (∀ sh season, season ≠ 0 →
      extract_episode_number entry.original_name = none →
      (preview_tv_show_rename epSvc st (some sh) (some season) entry).1.status =
          "No episode number found" ∧
      (preview_tv_show_rename epSvc st (some sh) (some season) entry).1.new_name = "") ∧
    (∀ sh season ep, season ≠ 0 → ep ≠ 0 →
      extract_episode_number entry.original_name = some ep →
      (get_episode_info epSvc st sh.id season ep).1 = none →
      (preview_tv_show_rename epSvc st (some sh) (some season) entry).1.status =
          "Episode not found in season " ++ toString season ∧
      (preview_tv_show_rename epSvc st (some sh) (some season) entry).1.new_name = "") := by
  refine ⟨fun season => ⟨rfl, rfl⟩, fun sh => ⟨rfl, rfl⟩, ?_, ?_⟩
  · intro sh season hs hex
    unfold preview_tv_show_rename
    simp [hs, hex]
  · intro sh season ep hs he hex hinfo
    unfold preview_tv_show_rename
    rcases hge : get_episode_info epSvc st sh.id season ep with ⟨o, st1⟩
    rw [hge] at hinfo
    simp only at hinfo
    subst hinfo
    simp [hs, hex, he, hge]

/-- C4 witness: the four missing-piece cases at concrete inputs — the
spec's end-to-end file with no show selected, a show but no season, a
filename with no extractable episode number, and an episode the lookup
service cannot find. -/
theorem c4_preview_specific_statuses_witness :
    (preview_tv_show_rename (fun _ _ _ => none) initRenamerState none none
        ⟨"p", "The.Wire.S01E01.Pilot.avi", "", "Pending"⟩).1.status = "No show selected" ∧
    (preview_tv_show_rename (fun _ _ _ => none) initRenamerState (some ⟨1, "W"⟩) none
        ⟨"p", "The.Wire.S01E01.Pilot.avi", "", "Pending"⟩).1.status = "No season selected" ∧
    (preview_tv_show_rename (fun _ _ _ => none) initRenamerState (some ⟨1, "W"⟩) (some 2)
        ⟨"p", "abc.mkv", "", "Pending"⟩).1.status = "No episode number found" ∧
    (preview_tv_show_rename (fun _ _ _ => none) initRenamerState (some ⟨1, "W"⟩) (some 2)
        ⟨"p", "Show.E01.avi", "", "Pending"⟩).1.status =
      "Episode not found in season " ++ toString 2 := by
  refine ⟨?_, ?_, ?_, ?_⟩
  · exact ((c4_preview_specific_statuses (fun _ _ _ => none) initRenamerState
      ⟨"p", "The.Wire.S01E01.Pilot.avi", "", "Pending"⟩).1 none).1
  · exact ((c4_preview_specific_statuses (fun _ _ _ => none) initRenamerState
      ⟨"p", "The.Wire.S01E01.Pilot.avi", "", "Pending"⟩).2.1 ⟨1, "W"⟩).1
  · exact ((c4_preview_specific_statuses (fun _ _ _ => none) initRenamerState
      ⟨"p", "abc.mkv", "", "Pending"⟩).2.2.1 ⟨1, "W"⟩ 2 (by decide) (by decide)).1
  · exact ((c4_preview_specific_statuses (fun _ _ _ => none) initRenamerState
      ⟨"p", "Show.E01.avi", "", "Pending"⟩).2.2.2 ⟨1, "W"⟩ 2 1 (by decide) (by decide)
      (by decide) (by rfl)).1

/-! ## C7: cache-entry boundedness -/

/-- The boundedness invariant: every cached show or episode value carries
an overview of at most 200 characters (the only free-text payload the
trimmed projections retain). -/
def cacheBounded (st : RenamerState) : Prop :=
  (∀ p ∈ st.show_cache, p.2.overview.length ≤ 200) ∧
    (∀ p ∈ st.episode_cache, p.2.overview.length ≤ 200)

lemma truncate200_length_le (s : String) : (truncate200 s).length ≤ 200 := by
  unfold truncate200
  show (s.data.take 200).length ≤ 200
  simp [List.length_take]

lemma cacheBounded_applyResolverOp (search : String → List SearchResult)
    (details : Nat → Option ShowDetailsResp)
    (epSvc : Nat → Nat → Nat → Option EpisodeDetailsResp)
    (seasonSvc : Nat → Nat → Option (List SeasonEpisodeResp))
    (st : RenamerState) (op : ResolverOp) (h : cacheBounded st) :
    cacheBounded (applyResolverOp search details epSvc seasonSvc st op) := by
  obtain ⟨hshow, hep⟩ := h
  unfold cacheBounded
  cases op with
  | showOp n =>
    unfold applyResolverOp get_show_info
    cases h1 : st.show_cache.lookup (pyLower n) with
    | some v => simp only [h1]; exact ⟨hshow, hep⟩
    | none =>
      simp only [h1]
      cases hs : search n with
      | nil => simp only [hs]; exact ⟨hshow, hep⟩
      | cons sr rest =>
        simp only [hs]
        cases hd : details sr.id with
        | none => simp only [hd]; exact ⟨hshow, hep⟩
        | some d =>
          simp only [hd]
          refine ⟨?_, hep⟩
          intro p hp
          simp only [List.mem_cons] at hp
          rcases hp with rfl | hp
          · exact truncate200_length_le _
          · exact hshow p hp
  | episodeOp i s e =>
    unfold applyResolverOp get_episode_info
    cases h1 : st.episode_cache.lookup
        (toString i ++ "_" ++ toString s ++ "_" ++ toString e) with
    | some v => simp only [h1]; exact ⟨hshow, hep⟩
    | none =>
      simp only [h1]
      cases hd : epSvc i s e with
      | none => simp only [hd]; exact ⟨hshow, hep⟩
      | some d =>
        simp only [hd]
        refine ⟨hshow, ?_⟩
        intro p hp
        simp only [List.mem_cons] at hp
        rcases hp with rfl | hp
        · exact truncate200_length_le _
        · exact hep p hp
  | seasonOp i s =>
    unfold applyResolverOp get_season_details
    cases h1 : st.season_cache.lookup (toString i ++ "_" ++ toString s) with
    | some v => simp only [h1]; exact ⟨hshow, hep⟩
    | none =>
      simp only [h1]
      cases hd : seasonSvc i s with
      | none => simp only [hd]; exact ⟨hshow, hep⟩
      | some eps => simp only [hd]; exact ⟨hshow, hep⟩

/-- C7: after any sequence of resolver calls against any lookup service,
every value stored in the show and episode caches is the trimmed
projection whose overview text is truncated to at most 200 characters. -/
theorem c7_cache_entries_bounded (search : String → List SearchResult)
    (details : Nat → Option ShowDetailsResp)
    (epSvc : Nat → Nat → Nat → Option EpisodeDetailsResp)
    (seasonSvc : Nat → Nat → Option (List SeasonEpisodeResp))
    (ops : List ResolverOp) :
    (∀ p ∈ (runResolverOps search details epSvc seasonSvc ops).show_cache,
        p.2.overview.length ≤ 200) ∧
      (∀ p ∈ (runResolverOps search details epSvc seasonSvc ops).episode_cache,
        p.2.overview.length ≤ 200) := by
  have hinit : cacheBounded initRenamerState := by
    constructor <;> intro p hp <;> simp [initRenamerState] at hp
  unfold runResolverOps
  generalize hst : initRenamerState = st0 at hinit
  clear hst
  induction ops generalizing st0 with
  | nil => exact hinit
  | cons op ops ih =>
    simp only [List.foldl_cons]
    exact ih _ (cacheBounded_applyResolverOp search details epSvc seasonSvc st0 op hinit)

set_option maxRecDepth 4000 in
/-- C7 witness: one show resolution against a service whose overview is
250 characters long stores an entry whose overview is capped at 200. -/
theorem c7_cache_entries_bounded_witness :
    ((pyLower "A",
        (⟨3, "N", "N", none,
          truncate200 (String.mk (List.replicate 250 'a'))⟩ : ShowData)).2.overview.length ≤
      200) :=
  (c7_cache_entries_bounded (fun _ => [⟨3⟩])
      (fun _ => some ⟨"N", "N", none, some (String.mk (List.replicate 250 'a'))⟩)
      (fun _ _ _ => none) (fun _ _ => none) [ResolverOp.showOp "A"]).1
    (pyLower "A",
      ⟨3, "N", "N", none, truncate200 (String.mk (List.replicate 250 'a'))⟩)
    (by decide)

/-! ## C10: the SEE heuristic needs a trailing non-digit -/

lemma ddThen_none_of_head_not_digit (k : List Char → Option β) (c : Char)
    (rest : List Char) (h : c.isDigit = false) :
    ddThen k (c :: rest) = none := by
  cases rest <;> simp [ddThen, h]

lemma afterX_none_of_digits (l : List Char) (h : ∀ c ∈ l, c.isDigit = true) :
    afterX l = none := by
  cases l with
  | nil => rfl
  | cons c r =>
    have hc := h c (by simp)
    simp [afterX, ne_of_isDigit c 'x' hc (by decide),
      ne_of_isDigit c 'X' hc (by decide)]

lemma ddThen_afterX_none_of_digits (l : List Char)
    (h : ∀ c ∈ l, c.isDigit = true) : ddThen afterX l = none := by
  match l with
  | [] => rfl
  | [a] =>
    simp [ddThen, afterX]
  | a :: b :: rest =>
    have hx1 : afterX rest = none :=
      afterX_none_of_digits rest (fun c hc => h c (by simp [hc]))
    have hx2 : afterX (b :: rest) = none :=
      afterX_none_of_digits (b :: rest) (fun c hc => h c (by simp at hc; simp [hc]))
    simp [ddThen, hx1, hx2]

lemma matchNxM_none_of_digits (l : List Char) (h : ∀ c ∈ l, c.isDigit = true) :
    matchNxM l = none := by
  unfold matchNxM zeroOpt
  cases l with
  | nil => exact ddThen_afterX_none_of_digits [] h
  | cons c rest =>
    have hr : ddThen afterX rest = none :=
      ddThen_afterX_none_of_digits rest (fun x hx => h x (by simp [hx]))
    have hl : ddThen afterX (c :: rest) = none := ddThen_afterX_none_of_digits _ h
    by_cases hc : c = '0'
    · subst hc
      simp [hr, hl]
    · simp [hc, hl]

lemma matchSE_none_of_head_digit (c : Char) (r : List Char)
    (h : c.isDigit = true) : matchSE (c :: r) = none := by
  simp [matchSE, ne_of_isDigit c 'S' h (by decide), ne_of_isDigit c 's' h (by decide)]

lemma matchES_none_of_head_digit (c : Char) (r : List Char)
    (h : c.isDigit = true) : matchES (c :: r) = none := by
  simp [matchES, ne_of_isDigit c 'E' h (by decide), ne_of_isDigit c 'e' h (by decide)]

lemma matchSeasonEpisode_none_of_head_digit (c : Char) (r : List Char)
    (h : c.isDigit = true) : matchSeasonEpisode (c :: r) = none := by
  have hlow : c.toLower = c := toLower_of_isDigit c h
  have hs : ('s' : Char).toLower = 's' := rfl
  simp [matchSeasonEpisode, stripCI, hlow, hs, ne_of_isDigit c 's' h (by decide)]

/-- Scanning a list of digits finds no separator position. -/
lemma scanPat_digits_none (m : List Char → Option (Nat × Nat)) :
    ∀ (ds : List Char), (∀ c ∈ ds, c.isDigit = true) →
      ∀ acc, scanPat m acc ds = none := by
  intro ds
  induction ds with
  | nil => intro _ _; rfl
  | cons c r ih =>
    intro h acc
    have hc : isSepCh c = false := isSepCh_false_of_isDigit c (h c (by simp))
    simp only [scanPat, hc]
    exact ih (fun x hx => h x (by simp [hx])) (c :: acc)

/-- Scanning alphabetic text, a dot, then digits only tests the matcher at
the dot, i.e. on the digit block. -/
lemma scanPat_alpha_dot_digits_none (m : List Char → Option (Nat × Nat))
    (name : List Char) (hname : ∀ c ∈ name, c.isAlpha = true)
    (ds : List Char) (hds : ∀ c ∈ ds, c.isDigit = true) (hm : m ds = none) :
    ∀ acc, scanPat m acc (name ++ '.' :: ds) = none := by
  induction name with
  | nil =>
    intro acc
    have hsep : isSepCh '.' = true := by decide
    simp only [List.nil_append, scanPat, hsep, hm, if_true]
    exact scanPat_digits_none m ds hds _
  | cons c cs ih =>
    intro acc
    have hc : isSepCh c = false := isSepCh_false_of_isAlpha c (hname c (by simp))
    simp only [List.cons_append, scanPat, hc]
    exact ih (fun x hx => hname x (by simp [hx])) (c :: acc)

/-- C10: the `Name.SEE` heuristic requires a non-digit character after the
three digits; for an alphabetic show name followed by a separator dot and
exactly three digits ending the filename, no pattern of
`extract_show_info` matches and the parser returns `none`. -/
theorem c10_see_requires_trailing_nondigit (current_season : Option Nat)
    (name : String) (hname : ∀ c ∈ name.data, c.isAlpha = true)
    (d1 d2 d3 : Char) (h1 : d1.isDigit = true) (h2 : d2.isDigit = true)
    (h3 : d3.isDigit = true) :
    extract_show_info current_season (name ++ "." ++ String.mk [d1, d2, d3]) = none := by
  have hds : ∀ c ∈ [d1, d2, d3], c.isDigit = true := by
    intro c hc
    simp only [List.mem_cons, List.not_mem_nil, or_false] at hc
    rcases hc with rfl | rfl | rfl
    · exact h1
    · exact h2
    · exact h3
  have hcs : (name ++ "." ++ String.mk [d1, d2, d3]).data =
      name.data ++ '.' :: [d1, d2, d3] := by
    simp [String.data_append]
  have heponly : matchEpisodeOnly (name.data ++ '.' :: [d1, d2, d3]) = none := by
    unfold matchEpisodeOnly
    cases hn : name.data with
    | nil => simp [ddThen_none_of_head_not_digit, afterDash]
    | cons c cs =>
      have hc : c.isDigit = false :=
        isDigit_false_of_isAlpha c (hname c (by simp [hn]))
      simp [ddThen_none_of_head_not_digit _ c _ hc]
  have hse : matchSE [d1, d2, d3] = none := matchSE_none_of_head_digit d1 _ h1
  have hnxm : matchNxM [d1, d2, d3] = none := matchNxM_none_of_digits _ hds
  have hsee : matchSEE [d1, d2, d3] = none := rfl
  have hseason : matchSeasonEpisode [d1, d2, d3] = none :=
    matchSeasonEpisode_none_of_head_digit d1 _ h1
  have hes : matchES [d1, d2, d3] = none := matchES_none_of_head_digit d1 _ h1
  unfold extract_show_info
  rw [hcs]
  simp only [heponly,
    scanPat_alpha_dot_digits_none matchSE name.data hname _ hds hse [],
    scanPat_alpha_dot_digits_none matchNxM name.data hname _ hds hnxm [],
    scanPat_alpha_dot_digits_none matchSEE name.data hname _ hds hsee [],
    scanPat_alpha_dot_digits_none matchSeasonEpisode name.data hname _ hds hseason [],
    scanPat_alpha_dot_digits_none matchES name.data hname _ hds hes []]

/-- C10 witness: `"Show.102"` (three digits, no extension) parses to
`none`. -/
theorem c10_see_requires_trailing_nondigit_witness :
    extract_show_info none "Show.102" = none := by
  have h := c10_see_requires_trailing_nondigit none "Show" (by decide)
    '1' '0' '2' (by decide) (by decide) (by decide)
  exact h

/-! ## C1: the `Name.SddEdd` pattern -/

/-- A character of a plain show name: a letter or a separator dot. -/
def alphaDot (c : Char) : Prop :=
  c.isAlpha = true ∨ c = '.'

instance (c : Char) : Decidable (alphaDot c) := by
  unfold alphaDot
  infer_instance

lemma alphaDot_not_digit {c : Char} (h : alphaDot c) : c.isDigit = false := by
  rcases h with h | rfl
  · exact isDigit_false_of_isAlpha c h
  · decide

lemma alphaDot_ne_zero {c : Char} (h : alphaDot c) : c ≠ '0' := by
  intro he
  subst he
  exact absurd (alphaDot_not_digit h) (by decide)

lemma epDigits_two (e1 e2 : Char) (rest : List Char)
    (he1 : e1.isDigit = true) (he2 : e2.isDigit = true) :
    epDigits (e1 :: e2 :: rest) = some (10 * dval e1 + dval e2) := by
  simp [epDigits, he1, he2]

lemma matchSE_block (d1 d2 e1 e2 : Char) (rest : List Char)
    (hd1 : d1.isDigit = true) (hd2 : d2.isDigit = true)
    (he1 : e1.isDigit = true) (he2 : e2.isDigit = true) :
    matchSE ('S' :: d1 :: d2 :: 'E' :: e1 :: e2 :: rest) =
      some (10 * dval d1 + dval d2, 10 * dval e1 + dval e2) := by
  have hE : ('E' : Char).isDigit = false := by decide
  have hep : epDigits (e1 :: e2 :: rest) = some (10 * dval e1 + dval e2) :=
    epDigits_two e1 e2 rest he1 he2
  by_cases h0 : d1 = '0'
  · subst h0
    simp [matchSE, zeroOpt, ddThen, afterE, hd2, hE, hep,
      show dval '0' = 0 from rfl]
  · simp [matchSE, zeroOpt, h0, ddThen, afterE, hd1, hd2, hE, hep]

lemma matchSE_none_mid : ∀ (cs : List Char), (∀ c ∈ cs, alphaDot c) →
    ∀ r, matchSE (cs ++ '.' :: r) = none := by
  intro cs hcs r
  cases cs with
  | nil => simp [matchSE]
  | cons c cs2 =>
    by_cases hS : c = 'S' ∨ c = 's'
    · have hnext : ∀ n tl, cs2 ++ '.' :: r = n :: tl →
          n.isDigit = false ∧ n ≠ '0' := by
        intro n tl he
        cases cs2 with
        | nil =>
          simp only [List.nil_append, List.cons.injEq] at he
          refine he.1 ▸ ⟨by decide, by decide⟩
        | cons c2 cs3 =>
          simp only [List.cons_append, List.cons.injEq] at he
          have h2 : alphaDot c2 := hcs c2 (by simp)
          exact he.1 ▸ ⟨alphaDot_not_digit h2, alphaDot_ne_zero h2⟩
      cases hnx : cs2 ++ '.' :: r with
      | nil => simp at hnx
      | cons n tl =>
        obtain ⟨hnd, hn0⟩ := hnext n tl hnx
        rcases hS with rfl | rfl <;>
          simp [matchSE, hnx, zeroOpt, hn0,
            ddThen_none_of_head_not_digit _ _ _ hnd]
    · push_neg at hS
      simp [matchSE, hS.1, hS.2]

lemma scanPat_SE (d1 d2 e1 e2 : Char) (hd1 : d1.isDigit = true)
    (hd2 : d2.isDigit = true) (he1 : e1.isDigit = true)
    (he2 : e2.isDigit = true) (ext : List Char) :
    ∀ (name : List Char), (∀ c ∈ name, alphaDot c) →
      ∀ acc, scanPat matchSE acc
          (name ++ '.' :: 'S' :: d1 :: d2 :: 'E' :: e1 :: e2 :: ext) =
        some (acc.reverse ++ name, 10 * dval d1 + dval d2,
          10 * dval e1 + dval e2) := by
  intro name
  induction name with
  | nil =>
    intro _ acc
    have hsep : isSepCh '.' = true := by decide
    simp only [List.nil_append, scanPat, hsep, if_true,
      matchSE_block d1 d2 e1 e2 ext hd1 hd2 he1 he2, List.append_nil]
  | cons c cs ih =>
    intro hname acc
    have hc : alphaDot c := hname c (by simp)
    have htail : ∀ x ∈ cs, alphaDot x := fun x hx => hname x (by simp [hx])
    have hstep : scanPat matchSE (c :: acc)
        (cs ++ '.' :: 'S' :: d1 :: d2 :: 'E' :: e1 :: e2 :: ext) =
        some ((c :: acc).reverse ++ cs, 10 * dval d1 + dval d2,
          10 * dval e1 + dval e2) := ih htail (c :: acc)
    rcases hc with ha | rfl
    · have hns : isSepCh c = false := isSepCh_false_of_isAlpha c ha
      simp only [List.cons_append, scanPat, hns, Bool.false_eq_true, if_false,
        List.append_eq, hstep, List.reverse_cons, List.append_assoc,
        List.singleton_append, List.nil_append]
    · have hsep : isSepCh '.' = true := by decide
      have hmid : matchSE (cs ++ '.' :: 'S' :: d1 :: d2 :: 'E' :: e1 :: e2 :: ext) =
          none := matchSE_none_mid cs htail _
      simp only [List.cons_append, scanPat, hsep, if_true, List.append_eq, hmid,
        hstep, List.reverse_cons, List.append_assoc, List.singleton_append,
        List.nil_append]

lemma stripTags_id : ∀ (l : List Char), '[' ∉ l → stripTags l none = l := by
  intro l
  induction l with
  | nil => intro _; rfl
  | cons c cs ih =>
    intro h
    have hc : c ≠ '[' := by
      intro he
      exact h (by rw [he]; exact List.mem_cons_self _ _)
    simp only [stripTags, hc, if_false]
    rw [ih (fun hm => h (by simp [hm]))]

lemma takeWhile_all {p : Char → Bool} : ∀ (l : List Char),
    (∀ c ∈ l, p c = true) → l.takeWhile p = l := by
  intro l
  induction l with
  | nil => intro _; rfl
  | cons c cs ih =>
    intro h
    rw [List.takeWhile_cons, if_pos (h c (by simp)), ih (fun x hx => h x (by simp [hx]))]

lemma cleanupShowName_plain (g1 : List Char) (h : ∀ c ∈ g1, alphaDot c) :
    cleanupShowName g1 =
      String.mk (pyStrip (g1.map (fun c => if c = '.' then ' ' else c))) := by
  unfold cleanupShowName
  dsimp only
  have hm : ∀ c ∈ g1.map (fun c => if c = '.' then ' ' else c),
      c.isAlpha = true ∨ c = ' ' := by
    intro c hc
    simp only [List.mem_map] at hc
    obtain ⟨x, hx, rfl⟩ := hc
    rcases h x hx with ha | rfl
    · by_cases hd : x = '.'
      · simp [hd]
      · simp [hd, ha]
    · simp
  have hraw : ∀ c ∈ pyStrip (g1.map (fun c => if c = '.' then ' ' else c)),
      c.isAlpha = true ∨ c = ' ' := fun c hc => hm c (mem_of_mem_pyStrip hc)
  have hnb : '[' ∉ pyStrip (g1.map (fun c => if c = '.' then ' ' else c)) := by
    intro hb
    rcases hraw '[' hb with ha | ha
    · simp at ha
    · cases ha
  rw [stripTags_id _ hnb, pyStrip_idem]
  have hnd : (pyStrip (g1.map (fun c => if c = '.' then ' ' else c))).takeWhile
      (fun c => c ≠ '-') = pyStrip (g1.map (fun c => if c = '.' then ' ' else c)) := by
    apply takeWhile_all
    intro c hc
    rcases hraw c hc with ha | rfl
    · simpa using ne_of_isAlpha c '-' ha (by decide)
    · simp
  rw [hnd, pyStrip_idem]

/-- C1: for every filename of the form `Name.SddEdd<ext>` — a show name
made of letters and separator dots, a dot, `S` plus two season digits, `E`
plus two episode digits, then any remainder — `extract_show_info` returns
the show name with dots replaced by spaces and whitespace trimmed, the
season integer with exactly the two season digits, and the episode integer
with exactly the two episode digits. -/
theorem c1_parse_sddedd (current_season : Option Nat) (name ext : String)
    (hname : ∀ c ∈ name.data, alphaDot c)
    (d1 d2 e1 e2 : Char) (hd1 : d1.isDigit = true) (hd2 : d2.isDigit = true)
    (he1 : e1.isDigit = true) (he2 : e2.isDigit = true) :
    extract_show_info current_season
        (name ++ "." ++ String.mk ('S' :: d1 :: d2 :: 'E' :: e1 :: e2 :: ext.data)) =
      some (String.mk (pyStrip (name.data.map (fun c => if c = '.' then ' ' else c))),
        10 * dval d1 + dval d2, 10 * dval e1 + dval e2) := by
  have hcs : (name ++ "." ++
      String.mk ('S' :: d1 :: d2 :: 'E' :: e1 :: e2 :: ext.data)).data =
      name.data ++ '.' :: 'S' :: d1 :: d2 :: 'E' :: e1 :: e2 :: ext.data := by
    simp [String.data_append]
  have heponly : matchEpisodeOnly
      (name.data ++ '.' :: 'S' :: d1 :: d2 :: 'E' :: e1 :: e2 :: ext.data) = none := by
    unfold matchEpisodeOnly
    cases hn : name.data with
    | nil => simp [ddThen_none_of_head_not_digit]
    | cons c cs =>
      have hc : c.isDigit = false :=
        alphaDot_not_digit (hname c (by simp [hn]))
      simp [ddThen_none_of_head_not_digit _ c _ hc]
  have hscan := scanPat_SE d1 d2 e1 e2 hd1 hd2 he1 he2 ext.data name.data hname []
  unfold extract_show_info
  rw [hcs]
  simp only [heponly, hscan, List.reverse_nil, List.nil_append]
  rw [cleanupShowName_plain name.data hname]

/-- C1 witness: `"Breaking.Bad.S01E05.mkv"` parses to
`("Breaking Bad", 1, 5)`. -/
theorem c1_parse_sddedd_witness :
    extract_show_info none "Breaking.Bad.S01E05.mkv" =
      some ("Breaking Bad", 1, 5) := by
  have h := c1_parse_sddedd none "Breaking.Bad" ".mkv" (by decide)
    '0' '1' '0' '5' (by decide) (by decide) (by decide) (by decide)
  exact h

/-! ## C6: contents of the undo record -/

lemma start_batch_go_char : ∀ (rows : List TreeRow) (fs : Finset (String × String)),
    (∀ r ∈ rows, r.status ≠ "Success") →
    ((start_batch_go fs rows).2.1 =
      ((start_batch_go fs rows).2.2.2.filter (fun r => r.status = "Success")).map
        (fun r => (r.path, r.original_name))) ∧
    ((start_batch_go fs rows).2.2.1 =
      ((start_batch_go fs rows).2.2.2.filter (fun r => r.status = "Success")).length) ∧
    (∀ pr ∈ rows.zip (start_batch_go fs rows).2.2.2,
      (pr.1.new_name = "" ∨ pr.1.new_name = "Not processed") → pr.2 = pr.1) ∧
    (∀ pr ∈ rows.zip (start_batch_go fs rows).2.2.2,
      ¬(pr.1.new_name = "" ∨ pr.1.new_name = "Not processed") →
      pr.2 = { pr.1 with path := (pr.1.path.1, pr.1.new_name), status := "Success" } ∨
      pr.2 = { pr.1 with status := "Error: " ++ osErrorMsg }) := by
  intro rows
  induction rows with
  | nil =>
    intro fs _
    refine ⟨rfl, rfl, ?_, ?_⟩ <;> intro pr hpr <;> simp at hpr
  | cons r rest ih =>
    intro fs hst
    have hstR : ∀ x ∈ rest, x.status ≠ "Success" :=
      fun x hx => hst x (by simp [hx])
    by_cases hskip : r.new_name = "" ∨ r.new_name = "Not processed"
    · have hcond : (r.new_name = "" || r.new_name = "Not processed") = true := by
        rcases hskip with h | h <;> simp [h]
      obtain ⟨ha, hb, hc, hd⟩ := ih fs hstR
      have hrs : decide (r.status = "Success") = false := by
        simp [hst r (by simp)]
      refine ⟨?_, ?_, ?_, ?_⟩
      · simp only [start_batch_go, hcond, if_true, List.filter_cons, hrs,
          Bool.false_eq_true, if_false, ha]
      · simp only [start_batch_go, hcond, if_true, List.filter_cons, hrs,
          Bool.false_eq_true, if_false, hb]
      · simp only [start_batch_go, hcond, if_true, List.zip_cons_cons, List.mem_cons]
        rintro pr (rfl | hpr)
        · intro _; rfl
        · exact hc pr hpr
      · simp only [start_batch_go, hcond, if_true, List.zip_cons_cons, List.mem_cons]
        rintro pr (rfl | hpr)
        · intro hn; exact absurd hskip hn
        · exact hd pr hpr
    · have hcond : (r.new_name = "" || r.new_name = "Not processed") = false := by
        push_neg at hskip
        simp [hskip.1, hskip.2]
      cases hr : osRename fs r.path (r.path.1, r.new_name) with
      | some fs1 =>
        obtain ⟨ha, hb, hc, hd⟩ := ih fs1 hstR
        refine ⟨?_, ?_, ?_, ?_⟩
        · simp only [start_batch_go, hcond, Bool.false_eq_true, if_false, hr,
            List.filter_cons]
          simp only [ha]
          simp
        · simp only [start_batch_go, hcond, Bool.false_eq_true, if_false, hr,
            List.filter_cons]
          simp only [hb]
          simp
        · simp only [start_batch_go, hcond, Bool.false_eq_true, if_false, hr,
            List.zip_cons_cons, List.mem_cons]
          rintro pr (rfl | hpr)
          · intro hn; exact absurd hn hskip
          · exact hc pr hpr
        · simp only [start_batch_go, hcond, Bool.false_eq_true, if_false, hr,
            List.zip_cons_cons, List.mem_cons]
          rintro pr (rfl | hpr)
          · intro _; left; rfl
          · exact hd pr hpr
      | none =>
        obtain ⟨ha, hb, hc, hd⟩ := ih fs hstR
        have hes : decide (("Error: " ++ osErrorMsg : String) = "Success") = false := by
          decide
        refine ⟨?_, ?_, ?_, ?_⟩
        · simp only [start_batch_go, hcond, Bool.false_eq_true, if_false, hr,
            List.filter_cons]
          simp only [hes, Bool.false_eq_true, if_false, ha]
        · simp only [start_batch_go, hcond, Bool.false_eq_true, if_false, hr,
            List.filter_cons]
          simp only [hes, Bool.false_eq_true, if_false, hb]
        · simp only [start_batch_go, hcond, Bool.false_eq_true, if_false, hr,
            List.zip_cons_cons, List.mem_cons]
          rintro pr (rfl | hpr)
          · intro hn; exact absurd hn hskip
          · exact hc pr hpr
        · simp only [start_batch_go, hcond, Bool.false_eq_true, if_false, hr,
            List.zip_cons_cons, List.mem_cons]
          rintro pr (rfl | hpr)
          · intro _; right; rfl
          · exact hd pr hpr

/-- C6: in `start_batch`, (a) the undo record lists exactly the
(post-rename path, original name) pairs of the rows whose rename
succeeded (status "Success"), so every recorded pair corresponds to a
successful rename and failed rows are excluded; (b) the caller receives
the count of successes; (c) a skipped row is unchanged and a processed
row either becomes Success with its path updated or gets an Error status;
(d) an `UndoBatch` is pushed onto the undo stack only when the record is
non-empty. -/
theorem c6_undo_record_contents (ts : String) (fs : Finset (String × String))
    (stack : List UndoBatch) (rows : List TreeRow)
    (hst : ∀ r ∈ rows, r.status ≠ "Success") :
    ((start_batch_go fs rows).2.1 =
      ((start_batch_go fs rows).2.2.2.filter (fun r => r.status = "Success")).map
        (fun r => (r.path, r.original_name))) ∧
    ((start_batch_go fs rows).2.2.1 =
      ((start_batch_go fs rows).2.2.2.filter (fun r => r.status = "Success")).length) ∧
    (∀ pr ∈ rows.zip (start_batch_go fs rows).2.2.2,
      (pr.1.new_name = "" ∨ pr.1.new_name = "Not processed") → pr.2 = pr.1) ∧
    (∀ pr ∈ rows.zip (start_batch_go fs rows).2.2.2,
      ¬(pr.1.new_name = "" ∨ pr.1.new_name = "Not processed") →
      pr.2 = { pr.1 with path := (pr.1.path.1, pr.1.new_name), status := "Success" } ∨
      pr.2 = { pr.1 with status := "Error: " ++ osErrorMsg }) ∧
    ((start_batch_go fs rows).2.1 = [] → (start_batch ts fs stack rows).2.1 = stack) ∧
    ((start_batch_go fs rows).2.1 ≠ [] →
      (start_batch ts fs stack rows).2.1 =
        stack ++ [⟨ts, (start_batch_go fs rows).2.1⟩]) := by
  obtain ⟨ha, hb, hc, hd⟩ := start_batch_go_char rows fs hst
  refine ⟨ha, hb, hc, hd, ?_, ?_⟩
  · intro hnil
    unfold start_batch
    simp [hnil]
  · intro hne
    unfold start_batch
    simp [List.isEmpty_iff, hne]

/-- C6 witness: a two-row batch over a filesystem holding only the first
row's file — the first rename succeeds, the second fails; the undo record
holds exactly the first pair, the success count is 1, the second row gets
the error status, and the batch is pushed. -/
theorem c6_undo_record_contents_witness :
    ((start_batch_go {("d", "a.mkv")}
        [⟨"a.mkv", "A.mkv", ("d", "a.mkv"), "Ready"⟩,
         ⟨"b.mkv", "B.mkv", ("d", "b.mkv"), "Ready"⟩]).2.1 =
      (((start_batch_go {("d", "a.mkv")}
          [⟨"a.mkv", "A.mkv", ("d", "a.mkv"), "Ready"⟩,
           ⟨"b.mkv", "B.mkv", ("d", "b.mkv"), "Ready"⟩]).2.2.2.filter
            (fun r => r.status = "Success")).map
        (fun r => (r.path, r.original_name)))) ∧
    ((start_batch "t" {("d", "a.mkv")} []
        [⟨"a.mkv", "A.mkv", ("d", "a.mkv"), "Ready"⟩,
         ⟨"b.mkv", "B.mkv", ("d", "b.mkv"), "Ready"⟩]).2.1 =
      [] ++ [⟨"t", (start_batch_go {("d", "a.mkv")}
        [⟨"a.mkv", "A.mkv", ("d", "a.mkv"), "Ready"⟩,
         ⟨"b.mkv", "B.mkv", ("d", "b.mkv"), "Ready"⟩]).2.1⟩]) := by
  constructor
  · exact (c6_undo_record_contents "t" {("d", "a.mkv")} []
      [⟨"a.mkv", "A.mkv", ("d", "a.mkv"), "Ready"⟩,
       ⟨"b.mkv", "B.mkv", ("d", "b.mkv"), "Ready"⟩] (by decide)).1
  · exact (c6_undo_record_contents "t" {("d", "a.mkv")} []
      [⟨"a.mkv", "A.mkv", ("d", "a.mkv"), "Ready"⟩,
       ⟨"b.mkv", "B.mkv", ("d", "b.mkv"), "Ready"⟩] (by decide)).2.2.2.2.2
      (by decide)

/-! ## C2: undo round-trip -/

/-- The pre-rename paths of a batch's rows. -/
def sourcesOf (rows : List TreeRow) : Finset (String × String) :=
  (rows.map TreeRow.path).toFinset

/-- The post-rename paths of a batch's rows. -/
def targetsOf (rows : List TreeRow) : Finset (String × String) :=
  (rows.map (fun r => (r.path.1, r.new_name))).toFinset

lemma mem_sourcesOf {p : String × String} {rows : List TreeRow} :
    p ∈ sourcesOf rows ↔ ∃ r ∈ rows, r.path = p := by
  simp [sourcesOf]

lemma mem_targetsOf {p : String × String} {rows : List TreeRow} :
    p ∈ targetsOf rows ↔ ∃ r ∈ rows, (r.path.1, r.new_name) = p := by
  simp [targetsOf]

lemma start_batch_go_success : ∀ (rows : List TreeRow) (fs : Finset (String × String)),
    (∀ r ∈ rows, r.new_name ≠ "" ∧ r.new_name ≠ "Not processed") →
    (∀ r ∈ rows, r.path ∈ fs) →
    (∀ r ∈ rows, (r.path.1, r.new_name) ∉ fs) →
    (rows.map TreeRow.path).Nodup →
    (rows.map (fun r => (r.path.1, r.new_name))).Nodup →
    (start_batch_go fs rows).1 = targetsOf rows ∪ (fs \ sourcesOf rows) ∧
    (start_batch_go fs rows).2.1 =
      rows.map (fun r => ((r.path.1, r.new_name), r.original_name)) ∧
    (start_batch_go fs rows).2.2.1 = rows.length := by
  intro rows
  induction rows with
  | nil =>
    intro fs _ _ _ _ _
    refine ⟨?_, rfl, rfl⟩
    simp [targetsOf, sourcesOf, start_batch_go]
  | cons r rest ih =>
    intro fs hskip hsrc htgt hsrcN htgtN
    have hcond : (r.new_name = "" || r.new_name = "Not processed") = false := by
      obtain ⟨h1, h2⟩ := hskip r (by simp)
      simp [h1, h2]
    have hsrcR : r.path ∈ fs := hsrc r (by simp)
    have htgtR : (r.path.1, r.new_name) ∉ fs := htgt r (by simp)
    have hren : osRename fs r.path (r.path.1, r.new_name) =
        some (insert (r.path.1, r.new_name) (fs.erase r.path)) := by
      unfold osRename
      rw [if_pos ⟨hsrcR, htgtR⟩]
    simp only [List.map_cons, List.nodup_cons] at hsrcN htgtN
    have hsrc1 : ∀ x ∈ rest, x.path ∈ insert (r.path.1, r.new_name) (fs.erase r.path) := by
      intro x hx
      refine Finset.mem_insert_of_mem (Finset.mem_erase.2 ⟨?_, hsrc x (by simp [hx])⟩)
      intro he
      exact hsrcN.1 (he ▸ List.mem_map_of_mem TreeRow.path hx)
    have htgt1 : ∀ x ∈ rest,
        (x.path.1, x.new_name) ∉ insert (r.path.1, r.new_name) (fs.erase r.path) := by
      intro x hx hmem
      rcases Finset.mem_insert.1 hmem with he | hin
      · exact htgtN.1 (he ▸ List.mem_map_of_mem (fun r => (r.path.1, r.new_name)) hx)
      · exact htgt x (by simp [hx]) (Finset.mem_of_mem_erase hin)
    obtain ⟨hfs, hfiles, hn⟩ := ih (insert (r.path.1, r.new_name) (fs.erase r.path))
      (fun x hx => hskip x (by simp [hx])) hsrc1 htgt1 hsrcN.2 htgtN.2
    have hsubS : ∀ x ∈ rest, x.path ∈ fs := fun x hx => hsrc x (by simp [hx])
    have hsubT : ∀ x ∈ rest, (x.path.1, x.new_name) ∉ fs :=
      fun x hx => htgt x (by simp [hx])
    refine ⟨?_, ?_, ?_⟩
    · simp only [start_batch_go, hcond, Bool.false_eq_true, if_false, hren, hfs]
      ext p
      have hBC : p ∈ sourcesOf rest → p ∈ fs := by
        rw [mem_sourcesOf]
        rintro ⟨x, hx, rfl⟩
        exact hsubS x hx
      have hAC : p ∈ targetsOf rest → p ∉ fs := by
        rw [mem_targetsOf]
        rintro ⟨x, hx, rfl⟩
        exact hsubT x hx
      have h5 : p = (r.path.1, r.new_name) → p ∉ fs := fun he => he ▸ htgtR
      have h6 : p = r.path → p ∈ fs := fun he => he ▸ hsrcR
      have hLt : targetsOf (r :: rest) = insert (r.path.1, r.new_name) (targetsOf rest) := by
        simp [targetsOf]
      have hLs : sourcesOf (r :: rest) = insert r.path (sourcesOf rest) := by
        simp [sourcesOf]
      rw [hLt, hLs]
      simp only [Finset.mem_union, Finset.mem_sdiff, Finset.mem_insert,
        Finset.mem_erase, ne_eq]
      tauto
    · simp only [start_batch_go, hcond, Bool.false_eq_true, if_false, hren, hfiles,
        List.map_cons]
    · simp only [start_batch_go, hcond, Bool.false_eq_true, if_false, hren, hn,
        List.length_cons]

lemma undo_files_success : ∀ (rows : List TreeRow) (fs : Finset (String × String)),
    (∀ r ∈ rows, (r.path.1, r.new_name) ∈ fs) →
    (∀ r ∈ rows, r.path ∉ fs) →
    (∀ r ∈ rows, r.original_name = r.path.2) →
    (rows.map TreeRow.path).Nodup →
    (rows.map (fun r => (r.path.1, r.new_name))).Nodup →
    undo_files fs (rows.map (fun r => ((r.path.1, r.new_name), r.original_name))) =
      sourcesOf rows ∪ (fs \ targetsOf rows) := by
  intro rows
  induction rows with
  | nil =>
    intro fs _ _ _ _ _
    simp [undo_files, sourcesOf, targetsOf]
  | cons r rest ih =>
    intro fs htgt hsrc horig hsrcN htgtN
    have htgtR : (r.path.1, r.new_name) ∈ fs := htgt r (by simp)
    have hsrcR : r.path ∉ fs := hsrc r (by simp)
    have horigR : r.original_name = r.path.2 := horig r (by simp)
    have hback : osRename fs (r.path.1, r.new_name) ((r.path.1, r.new_name).1, r.original_name) =
        some (insert r.path (fs.erase (r.path.1, r.new_name))) := by
      unfold osRename
      have he : ((r.path.1, r.new_name).1, r.original_name) = r.path := by
        rw [horigR]
      rw [he, if_pos ⟨htgtR, hsrcR⟩]
    simp only [List.map_cons, List.nodup_cons] at hsrcN htgtN
    have htgt1 : ∀ x ∈ rest,
        (x.path.1, x.new_name) ∈ insert r.path (fs.erase (r.path.1, r.new_name)) := by
      intro x hx
      refine Finset.mem_insert_of_mem (Finset.mem_erase.2 ⟨?_, htgt x (by simp [hx])⟩)
      intro he
      exact htgtN.1 (he ▸ List.mem_map_of_mem (fun r => (r.path.1, r.new_name)) hx)
    have hsrc1 : ∀ x ∈ rest,
        x.path ∉ insert r.path (fs.erase (r.path.1, r.new_name)) := by
      intro x hx hmem
      rcases Finset.mem_insert.1 hmem with he | hin
      · exact hsrcN.1 (he ▸ List.mem_map_of_mem TreeRow.path hx)
      · exact hsrc x (by simp [hx]) (Finset.mem_of_mem_erase hin)
    have hstep := ih (insert r.path (fs.erase (r.path.1, r.new_name))) htgt1 hsrc1
      (fun x hx => horig x (by simp [hx])) hsrcN.2 htgtN.2
    have hsubT : ∀ x ∈ rest, (x.path.1, x.new_name) ∈ fs :=
      fun x hx => htgt x (by simp [hx])
    have hsubS : ∀ x ∈ rest, x.path ∉ fs := fun x hx => hsrc x (by simp [hx])
    simp only [List.map_cons, undo_files, htgtR, if_pos, hback, hstep]
    ext p
    have hBC : p ∈ targetsOf rest → p ∈ fs := by
      rw [mem_targetsOf]
      rintro ⟨x, hx, rfl⟩
      exact hsubT x hx
    have hAC : p ∈ sourcesOf rest → p ∉ fs := by
      rw [mem_sourcesOf]
      rintro ⟨x, hx, rfl⟩
      exact hsubS x hx
    have h5 : p = r.path → p ∉ fs := fun he => he ▸ hsrcR
    have h6 : p = (r.path.1, r.new_name) → p ∈ fs := fun he => he ▸ htgtR
    have hLt : targetsOf (r :: rest) = insert (r.path.1, r.new_name) (targetsOf rest) := by
      simp [targetsOf]
    have hLs : sourcesOf (r :: rest) = insert r.path (sourcesOf rest) := by
      simp [sourcesOf]
    rw [hLt, hLs]
    simp only [Finset.mem_union, Finset.mem_sdiff, Finset.mem_insert,
      Finset.mem_erase, ne_eq]
    tauto

/-- C2: starting from an empty undo stack, a batch in which every entry is
successfully renamed from its original name A to its proposed name B
(pairwise-distinct sources present on the filesystem, pairwise-distinct
targets absent from it), followed by `undo_last_batch`, renames every file
back to its original name in the same directory — the filesystem is
restored exactly — and the undo stack is empty afterward; the batch had
reported one success per row. -/
theorem c2_undo_round_trip (ts : String) (fs : Finset (String × String))
    (rows : List TreeRow)
    (hskip : ∀ r ∈ rows, r.new_name ≠ "" ∧ r.new_name ≠ "Not processed")
    (hsrc : ∀ r ∈ rows, r.path ∈ fs)
    (htgt : ∀ r ∈ rows, (r.path.1, r.new_name) ∉ fs)
    (horig : ∀ r ∈ rows, r.original_name = r.path.2)
    (hsrcN : (rows.map TreeRow.path).Nodup)
    (htgtN : (rows.map (fun r => (r.path.1, r.new_name))).Nodup) :
    (start_batch ts fs [] rows).2.2.1 = rows.length ∧
      undo_last_batch (start_batch ts fs [] rows).1 (start_batch ts fs [] rows).2.1 =
        (fs, []) := by
  obtain ⟨hfs, hfiles, hn⟩ := start_batch_go_success rows fs hskip hsrc htgt hsrcN htgtN
  by_cases hrow : rows = []
  · subst hrow
    exact ⟨rfl, rfl⟩
  · have hfne : (start_batch_go fs rows).2.1 ≠ [] := by
      rw [hfiles]
      simpa using hrow
    have hstack : (start_batch ts fs [] rows).2.1 =
        [⟨ts, (start_batch_go fs rows).2.1⟩] := by
      unfold start_batch
      simp [List.isEmpty_iff, hfne]
    have hfs1 : (start_batch ts fs [] rows).1 = (start_batch_go fs rows).1 := rfl
    constructor
    · exact hn
    · rw [hstack, hfs1]
      unfold undo_last_batch
      simp only [List.getLast?_singleton, List.dropLast_single]
      refine Prod.ext ?_ rfl
      simp only
      rw [hfs, hfiles]
      have htgt1 : ∀ r ∈ rows,
          (r.path.1, r.new_name) ∈ targetsOf rows ∪ (fs \ sourcesOf rows) := by
        intro r hr
        exact Finset.mem_union_left _ (mem_targetsOf.2 ⟨r, hr, rfl⟩)
      have hsrc1 : ∀ r ∈ rows,
          r.path ∉ targetsOf rows ∪ (fs \ sourcesOf rows) := by
        intro r hr hmem
        rcases Finset.mem_union.1 hmem with hA | hB
        · obtain ⟨x, hx, hxe⟩ := mem_targetsOf.1 hA
          exact htgt x hx (hxe ▸ hsrc r hr)
        · exact (Finset.mem_sdiff.1 hB).2 (mem_sourcesOf.2 ⟨r, hr, rfl⟩)
      rw [undo_files_success rows (targetsOf rows ∪ (fs \ sourcesOf rows))
        htgt1 hsrc1 horig hsrcN htgtN]
      ext p
      have hBC : p ∈ sourcesOf rows → p ∈ fs := by
        rw [mem_sourcesOf]
        rintro ⟨x, hx, rfl⟩
        exact hsrc x hx
      have hAC : p ∈ targetsOf rows → p ∉ fs := by
        rw [mem_targetsOf]
        rintro ⟨x, hx, rfl⟩
        exact htgt x hx
      simp only [Finset.mem_union, Finset.mem_sdiff]
      tauto

/-- C2 witness: a concrete two-file batch renamed and then undone; both
renames succeed and the undo restores the filesystem and empties the
stack. -/
theorem c2_undo_round_trip_witness :
    (start_batch "t" ({("d", "a.mkv"), ("d", "b.mkv")} : Finset (String × String)) []
        [⟨"a.mkv", "A.mkv", ("d", "a.mkv"), "Ready"⟩,
         ⟨"b.mkv", "B.mkv", ("d", "b.mkv"), "Ready"⟩]).2.2.1 = 2 ∧
      undo_last_batch
          (start_batch "t" ({("d", "a.mkv"), ("d", "b.mkv")} : Finset (String × String)) []
            [⟨"a.mkv", "A.mkv", ("d", "a.mkv"), "Ready"⟩,
             ⟨"b.mkv", "B.mkv", ("d", "b.mkv"), "Ready"⟩]).1
          (start_batch "t" ({("d", "a.mkv"), ("d", "b.mkv")} : Finset (String × String)) []
            [⟨"a.mkv", "A.mkv", ("d", "a.mkv"), "Ready"⟩,
             ⟨"b.mkv", "B.mkv", ("d", "b.mkv"), "Ready"⟩]).2.1 =
        (({("d", "a.mkv"), ("d", "b.mkv")} : Finset (String × String)), []) :=
  c2_undo_round_trip "t" {("d", "a.mkv"), ("d", "b.mkv")}
    [⟨"a.mkv", "A.mkv", ("d", "a.mkv"), "Ready"⟩,
     ⟨"b.mkv", "B.mkv", ("d", "b.mkv"), "Ready"⟩]
    (by decide) (by decide) (by decide) (by decide) (by decide) (by decide)
